import Mathlib

/-!
Verification development for the albion-discord-bot core: the identifier
parser and alias normalizer of scripts/common_names.py, and the fuzzy item
matcher of cogs/fetchprice.py.  The Python code is shallowly embedded:
dictionaries with possibly-missing or null fields become explicit sum
types, in-place list mutation becomes explicit list threading, and an
uncaught Python exception becomes the error branch of Except or a none
result.  The difflib SequenceMatcher ratio (an external standard-library
collaborator, used only through its result value) is kept abstract as a
function argument returning a rational number.
-/

namespace Albion

/-- A JSON object field that is either missing from the object (subscripting
raises KeyError), present but null (subscripting raises TypeError), or a
mapping from locale keys to display names. -/
inductive LocNames where
  | absent
  | null
  | map (entries : List (String × String))
deriving DecidableEq

/-- One catalog item as stored in items.json: the UniqueName key (none when
the key is missing), the LocalizedNames field, and the CommonNames list the
normalizer writes. -/
structure Item where
  uniqueName : Option String
  localizedNames : LocNames
  commonNames : List String
deriving DecidableEq

/-- The ItemName namedtuple of common_names.py: tier, base name, enchant. -/
structure ItemName where
  tier : Nat
  name : String
  enchant : Nat
deriving DecidableEq

/-! ## Identifier parser: TIER_REGEX and _convertItem

The regex is r"(?:T(\d))_(\w+)(?:@(\d))?".  findall scans the string left to
right and the code uses the first match, so we model the leftmost match: at
a given position the pattern needs the literal T, one digit, an underscore,
a greedy nonempty run of word characters, then optionally an at-sign and a
digit. -/

/-- Python word character for this ASCII identifier domain: [A-Za-z0-9_]. -/
def isWordChar (c : Char) : Bool := c.isAlphanum || c == '_'

/-- Greedy split of the longest word-character prefix, the rest unchanged. -/
def takeWordChars : List Char → List Char × List Char
  | [] => ([], [])
  | c :: cs =>
    if isWordChar c then
      let p := takeWordChars cs
      (c :: p.1, p.2)
    else ([], c :: cs)

/-- After "T<digit>_" has matched with tier digit d, match the greedy
word-character group and the optional at-digit group. -/
def tailMatch (d : Char) (rest : List Char) : Option (Char × List Char × Option Char) :=
  match takeWordChars rest with
  | ([], _) => none
  | (w, '@' :: e :: _) => if e.isDigit then some (d, w, some e) else some (d, w, none)
  | (w, _) => some (d, w, none)

/-- Try to match TIER_REGEX anchored at the start of the character list. -/
def tierMatchAt : List Char → Option (Char × List Char × Option Char)
  | 'T' :: d :: '_' :: rest => if d.isDigit then tailMatch d rest else none
  | _ => none

/-- First (leftmost) match of TIER_REGEX in the character list, as
re.findall followed by taking the first tuple. -/
def findTierMatch : List Char → Option (Char × List Char × Option Char)
  | [] => none
  | c :: cs =>
    match tierMatchAt (c :: cs) with
    | some m => some m
    | none => findTierMatch cs

/-- Numeric value of a digit character. -/
def digitVal (c : Char) : Nat := c.toNat - 48

/-- _convertItem: parse the identifier, defaulting to tier 1, the whole
string as name, and enchant 0 when the regex finds no match; a missing
at-group gives enchant 0 (Python: _tryInt of the empty string).  Total,
as the Python function: findall never raises and _tryInt catches
ValueError. -/
def convertItem (name : String) : ItemName :=
  match findTierMatch name.data with
  | some (d, w, e) =>
    ItemName.mk (digitVal d) (String.mk w)
      (match e with
       | some c => digitVal c
       | none => 0)
  | none => ItemName.mk 1 name 0

/-- Whether TIER_REGEX matches anywhere in the string. -/
def hasTierPattern (s : String) : Bool := (findTierMatch s.data).isSome

/-! ## Alias normalizer: common_names.py -/

/-- TIER_LONG_NAMES of common_names.py. -/
def TIER_LONG_NAMES : List String :=
  ["Journeyman\x27s", "Adept\x27s", "Expert\x27s", "Master\x27s",
   "Grandmaster\x27s", "Elder\x27s"]

/-- ENC_LONG_NAMES of common_names.py. -/
def ENC_LONG_NAMES : List String := ["Uncommon", "Rare", "Exceptional", "Cured"]

/-- RESOURCE_NAMES of common_names.py (the Python set literal repeats
"Thick"; a duplicate in the list leaves membership unchanged). -/
def RESOURCE_NAMES : List String :=
  ["Birch", "Pine", "Cedar", "Bloodoak", "Ashenbark", "Whitewood", "Copper",
   "Tin", "Iron", "Titatnium", "Runite", "Meteorite", "Adamantium", "Rugged",
   "Thin", "Medium", "Heavy", "Robust", "Thick", "Resilient", "Bronze",
   "Stiff", "Thick", "Worked", "Cured", "Hardened", "Reinforced", "Fortified",
   "Simple", "Neat", "Fine", "Ornate", "Lavish", "Opulent", "Baroque"]

/-- Python str.lower over the ASCII identifier and alias domain. -/
def pyLower (s : String) : String := String.mk (s.data.map Char.toLower)

/-- Helper for pysplit: structural recursion over the characters with the
current token accumulated in reverse. -/
def pysplitAux : List Char → List Char → List String
  | [], acc => if acc.isEmpty then [] else [String.mk acc.reverse]
  | c :: cs, acc =>
    if c.isWhitespace then
      if acc.isEmpty then pysplitAux cs [] else String.mk acc.reverse :: pysplitAux cs []
    else pysplitAux cs (c :: acc)

/-- Python str.split with no argument: maximal nonempty runs of
non-whitespace characters, whitespace runs discarded. -/
def pysplit (s : String) : List String := pysplitAux s.data []

/-- Python dict subscript on a string-keyed mapping, first matching key. -/
def lookupLoc : List (String × String) → String → Option String
  | [], _ => none
  | p :: rest, k => if p.1 == k then some p.2 else lookupLoc rest k

/-- The short dotted code f-string "T{tier}.{enchant}". -/
def shortTE (n : ItemName) : String :=
  "T" ++ toString n.tier ++ "." ++ toString n.enchant

/-- The short bare code f-string "T{tier}". -/
def shortT (n : ItemName) : String := "T" ++ toString n.tier

/-- _addTierNickname: append the dotted shorthand, and the bare shorthand
as well when enchant is 0.  The CommonNames list is threaded explicitly in
place of the Python in-place append. -/
def addTierNickname (n : ItemName) (cs : List String) : List String :=
  let cs1 := cs ++ [shortTE n ++ " " ++ n.name]
  if n.enchant = 0 then cs1 ++ [shortT n ++ " " ++ n.name] else cs1

/-- _replaceLongTierName.  The ok branch is normal completion; the error
branch is an uncaught Python exception, carrying the CommonNames list as it
stands when the exception is raised.  Only TypeError is caught in the
source, so a missing LocalizedNames key (KeyError), a missing EN-US key
(KeyError), and an empty split (IndexError on fields[0]) all propagate. -/
def replaceLongTierName (n : ItemName) (loc : LocNames) (cs : List String) :
    Except (List String) (List String) :=
  match loc with
  | .absent => .error cs
  | .null => .ok cs
  | .map m =>
    match lookupLoc m "EN-US" with
    | none => .error cs
    | some longName =>
      match pysplit longName with
      | [] => .error cs
      | f0 :: rest =>
        if TIER_LONG_NAMES.contains f0 then
          let cs1 := cs ++ [String.intercalate " " (shortTE n :: rest)]
          if n.enchant = 0 then
            .ok (cs1 ++ [String.intercalate " " (shortT n :: rest)])
          else .ok cs1
        else .ok cs

/-- _replaceLongEnchantName.  Same error model as replaceLongTierName; in
addition the unguarded fields[1] subscript raises IndexError when the
display name has a single word, after the first alias was already
appended. -/
def replaceLongEnchantName (n : ItemName) (loc : LocNames) (cs : List String) :
    Except (List String) (List String) :=
  match loc with
  | .absent => .error cs
  | .null => .ok cs
  | .map m =>
    match lookupLoc m "EN-US" with
    | none => .error cs
    | some longName =>
      match pysplit longName with
      | [] => .error cs
      | f0 :: rest =>
        if ENC_LONG_NAMES.contains f0 then
          let cs1 := cs ++ [String.intercalate " " (shortTE n :: rest)]
          match rest with
          | [] => .error cs1
          | f1 :: rest2 =>
            let cs2 :=
              if RESOURCE_NAMES.contains f1 then
                cs1 ++ [String.intercalate " " (shortTE n :: rest2)]
              else cs1
            if n.enchant = 0 then
              let cs3 := cs2 ++ [String.intercalate " " (shortT n :: rest)]
              let cs4 :=
                if RESOURCE_NAMES.contains f1 then
                  cs3 ++ [String.intercalate " " (shortT n :: rest2)]
                else cs3
              .ok cs4
            else .ok cs2
        else .ok cs

/-- The per-item body of main in common_names.py, acting on the CommonNames
list: reset to empty, parse the identifier, then run the three alias rules
in order.  A missing UniqueName key raises KeyError before any rule runs. -/
def enrichNames (uid? : Option String) (loc : LocNames) :
    Except (List String) (List String) :=
  match uid? with
  | none => .error []
  | some uid =>
    let n := convertItem uid
    let cs := addTierNickname n []
    match replaceLongTierName n loc cs with
    | .error cs2 => .error cs2
    | .ok cs2 =>
      match replaceLongEnchantName n loc cs2 with
      | .error cs3 => .error cs3
      | .ok cs3 => .ok cs3

/-- Enrichment of one item: only the CommonNames field is written; the
error branch is the item state at the uncaught exception. -/
def enrichItem (item : Item) : Except Item Item :=
  match enrichNames item.uniqueName item.localizedNames with
  | .error cs => .error { item with commonNames := cs }
  | .ok cs => .ok { item with commonNames := cs }

/-- Sequential evaluation that stops at the first failure, as a Python list
comprehension or loop that can raise. -/
def optMap (f : α → Option β) : List α → Option (List β)
  | [] => some []
  | a :: l =>
    match f a with
    | none => none
    | some b =>
      match optMap f l with
      | none => none
      | some bs => some (b :: bs)

/-- The loop of main over the whole catalog: none when any item raises (the
run aborts and nothing is written). -/
def enrichCatalog (data : List Item) : Option (List Item) :=
  optMap (fun it => (enrichItem it).toOption) data

/-! ## Fuzzy matcher: item_match of cogs/fetchprice.py

The difflib SequenceMatcher ratio is abstract: every statement quantifies
over the ratio function, and witnesses instantiate it with a concrete
executable stand-in.  Distances are 1 minus the ratio, as in the source. -/

/-- The first try block of the loop body: one candidate for the lower-cased
UniqueName, distance 1 when the key is missing (the bare except).  The
query w1 is already lower-cased. -/
def uniqueCand (ratioFn : String → String → ℚ) (w1 : String) (i : Nat)
    (u : Option String) : List (ℚ × Nat) :=
  match u with
  | some uid => [(1 - ratioFn w1 (pyLower uid), i)]
  | none => [(1, i)]

/-- The second try block: one candidate holding the minimum distance over
all LocalizedNames values, distance 1 when the field is missing, null, or
an empty mapping (KeyError, TypeError, or ValueError from min, all caught
by the bare except). -/
def localCand (ratioFn : String → String → ℚ) (w1 : String) (i : Nat)
    (loc : LocNames) : List (ℚ × Nat) :=
  match loc with
  | .map m =>
    match (m.map (fun p => 1 - ratioFn w1 (pyLower p.2))).min? with
    | some d => [(d, i)]
    | none => [(1, i)]
  | _ => [(1, i)]

/-- The third, unguarded loop: one candidate per CommonNames entry. -/
def cnameCands (ratioFn : String → String → ℚ) (w1 : String) (i : Nat)
    (cns : List String) : List (ℚ × Nat) :=
  cns.map (fun c => (1 - ratioFn w1 (pyLower c), i))

/-- The candidates the loop body appends for the item at index i, in source
order: UniqueName, best localized name, then the common names. -/
def itemBlock (ratioFn : String → String → ℚ) (w1 : String) (i : Nat)
    (item : Item) : List (ℚ × Nat) :=
  uniqueCand ratioFn w1 i item.uniqueName
    ++ localCand ratioFn w1 i item.localizedNames
    ++ cnameCands ratioFn w1 i item.commonNames

/-- The enumerate loop of item_match, accumulating the flat candidate list
starting at index k. -/
def jDistsFrom (ratioFn : String → String → ℚ) (w1 : String) :
    Nat → List Item → List (ℚ × Nat)
  | _, [] => []
  | k, item :: rest => itemBlock ratioFn w1 k item ++ jDistsFrom ratioFn w1 (k + 1) rest

/-- The full flat candidate list of item_match for a query. -/
def jDists (ratioFn : String → String → ℚ) (inputWord : String)
    (data : List Item) : List (ℚ × Nat) :=
  jDistsFrom ratioFn (pyLower inputWord) 0 data

/-- The order Python sorted uses on the two-element lists [jDist, i]:
lexicographic, distance first, item index second. -/
def lexR (a b : ℚ × Nat) : Prop := a.1 < b.1 ∨ (a.1 = b.1 ∧ a.2 ≤ b.2)

instance : DecidableRel lexR := fun a b =>
  inferInstanceAs (Decidable (a.1 < b.1 ∨ (a.1 = b.1 ∧ a.2 ≤ b.2)))

/-- Python sorted on the candidate list.  lexR is total, transitive and
antisymmetric, so the sorted permutation is unique and any correct sort
models the builtin exactly. -/
def sortCands (l : List (ℚ × Nat)) : List (ℚ × Nat) := l.insertionSort lexR

/-- The LocalizedNames EN-US lookup used by the result extraction; none
models the KeyError or TypeError the unguarded subscripts raise. -/
def enUSName (it : Item) : Option String :=
  match it.localizedNames with
  | .map m => lookupLoc m "EN-US"
  | _ => none

/-- data[i]["LocalizedNames"]["EN-US"] in the result extraction. -/
def getLocEN (data : List Item) (i : Nat) : Option String :=
  (data.get? i).bind enUSName

/-- data[i]["UniqueName"] in the result extraction. -/
def getUniqueId (data : List Item) (i : Nat) : Option String :=
  (data.get? i).bind (fun it => it.uniqueName)

/-- The two result comprehensions over the four closest candidates: the
names first, then the ids; none models the uncaught exception when a
winning item lacks the EN-US localized name or the UniqueName key. -/
def extractResults (data : List Item) (top : List (ℚ × Nat)) :
    Option (List String × List String) :=
  match optMap (fun c => getLocEN data c.2) top with
  | none => none
  | some names =>
    match optMap (fun c => getUniqueId data c.2) top with
    | none => none
    | some ids => some (names, ids)

/-- item_match: build the flat candidate list, sort it, keep the first
four entries, and extract their display names and ids. -/
def item_match (ratioFn : String → String → ℚ) (inputWord : String)
    (data : List Item) : Option (List String × List String) :=
  extractResults data ((sortCands (jDists ratioFn inputWord data)).take 4)

/-- A concrete executable stand-in for the abstract similarity ratio, used
only to instantiate witnesses: 1 on equal strings, 0 otherwise. -/
def ratioEq : String → String → ℚ := fun a b => if a == b then 1 else 0

/-! ## Properties of the sort order -/

instance : IsTrans (ℚ × Nat) lexR := by
  constructor
  intro a b c hab hbc
  rcases hab with h1 | ⟨h1, h2⟩ <;> rcases hbc with h3 | ⟨h3, h4⟩
  · exact Or.inl (h1.trans h3)
  · exact Or.inl (h3 ▸ h1)
  · exact Or.inl (h1 ▸ h3)
  · exact Or.inr ⟨h1.trans h3, h2.trans h4⟩

instance : IsTotal (ℚ × Nat) lexR := by
  constructor
  intro a b
  rcases lt_trichotomy a.1 b.1 with h | h | h
  · exact Or.inl (Or.inl h)
  · rcases Nat.le_total a.2 b.2 with h2 | h2
    · exact Or.inl (Or.inr ⟨h, h2⟩)
    · exact Or.inr (Or.inr ⟨h.symm, h2⟩)
  · exact Or.inr (Or.inl h)

instance : IsAntisymm (ℚ × Nat) lexR := by
  constructor
  intro a b hab hba
  rcases hab with h1 | ⟨h1, h2⟩ <;> rcases hba with h3 | ⟨h3, h4⟩
  · exact absurd h3 (lt_asymm h1)
  · exact absurd h1 (h3 ▸ lt_irrefl _)
  · exact absurd h3 (h1 ▸ lt_irrefl _)
  · exact Prod.ext h1 (Nat.le_antisymm h2 h4)

/-! ## Structure of the flat candidate list -/

theorem mem_uniqueCand_snd {ratioFn w1 i u c} (hc : c ∈ uniqueCand ratioFn w1 i u) :
    c.2 = i := by
  cases u <;> simp [uniqueCand] at hc <;> simp [hc]

theorem mem_localCand_snd {ratioFn w1 i loc c} (hc : c ∈ localCand ratioFn w1 i loc) :
    c.2 = i := by
  cases loc with
  | map m =>
    rcases hm : (m.map (fun p => 1 - ratioFn w1 (pyLower p.2))).min? with _ | d <;>
      simp [localCand, hm] at hc <;> simp [hc]
  | absent => simp [localCand] at hc; simp [hc]
  | null => simp [localCand] at hc; simp [hc]

theorem mem_cnameCands_snd {ratioFn w1 i cns c} (hc : c ∈ cnameCands ratioFn w1 i cns) :
    c.2 = i := by
  simp [cnameCands] at hc
  obtain ⟨a, _, ha⟩ := hc
  simp [← ha]

theorem mem_itemBlock_snd {ratioFn w1 i it c} (hc : c ∈ itemBlock ratioFn w1 i it) :
    c.2 = i := by
  rcases List.mem_append.mp hc with h | h
  · rcases List.mem_append.mp h with h1 | h1
    · exact mem_uniqueCand_snd h1
    · exact mem_localCand_snd h1
  · exact mem_cnameCands_snd h

theorem filter_itemBlock_self (ratioFn w1 i it) :
    (itemBlock ratioFn w1 i it).filter (fun c => c.2 == i) = itemBlock ratioFn w1 i it :=
  List.filter_eq_self.mpr (fun c hc => by
    have := mem_itemBlock_snd hc
    simp [this])

theorem filter_itemBlock_ne {i j : Nat} (ratioFn w1 it) (h : j ≠ i) :
    (itemBlock ratioFn w1 j it).filter (fun c => c.2 == i) = [] :=
  List.filter_eq_nil_iff.mpr (fun c hc => by
    have := mem_itemBlock_snd hc
    simp [this, h])

theorem jDistsFrom_filter_lt (ratioFn w1) :
    ∀ (l : List Item) (k i : Nat), i < k →
      (jDistsFrom ratioFn w1 k l).filter (fun c => c.2 == i) = [] := by
  intro l
  induction l with
  | nil => intro k i _; rfl
  | cons it rest ih =>
    intro k i hik
    have hne : k ≠ i := fun h => absurd (h ▸ hik) (lt_irrefl _)
    simp only [jDistsFrom, List.filter_append, filter_itemBlock_ne ratioFn w1 it hne,
      ih (k + 1) i (Nat.lt_succ_of_lt hik), List.nil_append]

theorem jDistsFrom_filter_get (ratioFn w1) :
    ∀ (l : List Item) (k j : Nat) (h : j < l.length),
      (jDistsFrom ratioFn w1 k l).filter (fun c => c.2 == (k + j)) =
        itemBlock ratioFn w1 (k + j) (l.get ⟨j, h⟩) := by
  intro l
  induction l with
  | nil => intro k j h; exact absurd h (Nat.not_lt_zero j)
  | cons it rest ih =>
    intro k j h
    cases j with
    | zero =>
      simp only [jDistsFrom, List.filter_append, Nat.add_zero, filter_itemBlock_self,
        jDistsFrom_filter_lt ratioFn w1 rest (k + 1) k (Nat.lt_succ_self k),
        List.append_nil, List.get]
    | succ j =>
      have hidx : k + (j + 1) = (k + 1) + j := by omega
      have hne : k ≠ (k + 1) + j := by omega
      simp only [jDistsFrom, List.filter_append, List.get, hidx,
        filter_itemBlock_ne ratioFn w1 it hne, List.nil_append,
        ih (k + 1) j (Nat.lt_of_succ_lt_succ h)]

theorem mem_jDistsFrom_snd_lt (ratioFn w1) :
    ∀ (l : List Item) (k : Nat) (c : ℚ × Nat), c ∈ jDistsFrom ratioFn w1 k l →
      c.2 < k + l.length := by
  intro l
  induction l with
  | nil => intro k c hc; exact absurd hc (List.not_mem_nil c)
  | cons it rest ih =>
    intro k c hc
    rcases List.mem_append.mp hc with h | h
    · have := mem_itemBlock_snd h
      simp only [List.length_cons, this]
      omega
    · have := ih (k + 1) c h
      simp only [List.length_cons]
      omega

theorem optMap_isSome (f : α → Option β) :
    ∀ l : List α, (∀ a ∈ l, (f a).isSome) → (optMap f l).isSome := by
  intro l
  induction l with
  | nil => intro _; rfl
  | cons a rest ih =>
    intro h
    have h1 : (f a).isSome := h a (List.mem_cons_self a rest)
    obtain ⟨b, hb⟩ := Option.isSome_iff_exists.mp h1
    have h2 := ih (fun x hx => h x (List.mem_cons_of_mem a hx))
    obtain ⟨bs, hbs⟩ := Option.isSome_iff_exists.mp h2
    simp [optMap, hb, hbs]

/-! ## Properties of the identifier parser -/

theorem findTierMatch_none_iff (l : List Char) :
    findTierMatch l = none ↔ ∀ l₁ l₂, l = l₁ ++ l₂ → tierMatchAt l₂ = none := by
  induction l with
  | nil =>
    constructor
    · intro _ l₁ l₂ hsplit
      obtain ⟨rfl, rfl⟩ := List.append_eq_nil.mp hsplit.symm
      rfl
    · intro _; rfl
  | cons c cs ih =>
    constructor
    · intro h l₁ l₂ hsplit
      have h1 : tierMatchAt (c :: cs) = none := by
        cases hm : tierMatchAt (c :: cs) with
        | none => rfl
        | some m => simp [findTierMatch, hm] at h
      have h2 : findTierMatch cs = none := by
        have := h
        rw [findTierMatch, h1] at this
        exact this
      cases l₁ with
      | nil =>
        have : l₂ = c :: cs := by simpa using hsplit.symm
        exact this ▸ h1
      | cons a l₁ =>
        have hcs : cs = l₁ ++ l₂ := by
          have := hsplit
          simp only [List.cons_append, List.cons.injEq] at this
          exact this.2
        exact (ih.mp h2) l₁ l₂ hcs
    · intro hall
      have h1 : tierMatchAt (c :: cs) = none := hall [] (c :: cs) rfl
      have h2 : findTierMatch cs = none :=
        ih.mpr (fun l₁ l₂ hh => hall (c :: l₁) l₂ (by simp [hh]))
      rw [findTierMatch, h1, h2]

theorem tailMatch_digits {d : Char} {rest : List Char}
    {res : Char × List Char × Option Char} (h : tailMatch d rest = some res) :
    res.1 = d ∧ ∀ c, res.2.2 = some c → c.isDigit = true := by
  unfold tailMatch at h
  split at h
  · simp at h
  · split at h
    · rename_i hdig
      obtain rfl := Option.some.inj h
      refine ⟨rfl, fun c hc => ?_⟩
      obtain rfl := Option.some.inj hc
      exact hdig
    · obtain rfl := Option.some.inj h
      exact ⟨rfl, fun c hc => by simp at hc⟩
  · obtain rfl := Option.some.inj h
    exact ⟨rfl, fun c hc => by simp at hc⟩

theorem tierMatchAt_digits {l : List Char} {res : Char × List Char × Option Char}
    (h : tierMatchAt l = some res) :
    res.1.isDigit = true ∧ ∀ c, res.2.2 = some c → c.isDigit = true := by
  unfold tierMatchAt at h
  split at h
  · split at h
    · rename_i hdig
      obtain ⟨h1, h2⟩ := tailMatch_digits h
      exact ⟨h1 ▸ hdig, h2⟩
    · exact absurd h (by simp)
  · exact absurd h (by simp)

theorem findTierMatch_digits :
    ∀ (l : List Char) (res : Char × List Char × Option Char),
      findTierMatch l = some res →
      res.1.isDigit = true ∧ ∀ c, res.2.2 = some c → c.isDigit = true := by
  intro l
  induction l with
  | nil => intro res h; exact absurd h (by simp [findTierMatch])
  | cons c cs ih =>
    intro res h
    cases hm : tierMatchAt (c :: cs) with
    | some m =>
      rw [findTierMatch, hm] at h
      obtain rfl : m = res := Option.some.inj h
      exact tierMatchAt_digits hm
    | none =>
      rw [findTierMatch, hm] at h
      exact ih res h

theorem digitVal_le_9 {c : Char} (h : c.isDigit = true) : digitVal c ≤ 9 := by
  have h2 : 48 ≤ c.val ∧ c.val ≤ 57 := by simpa [Char.isDigit] using h
  have h3 : c.val.toNat ≤ 57 := UInt32.toNat_le_of_le (by norm_num [UInt32.size]) h2.2
  simp only [digitVal, Char.toNat]
  omega

/-! ## Enrichment as a fixed point -/

theorem enrichItem_ok_fixed {it r : Item} (h : enrichItem it = .ok r) :
    enrichItem r = .ok r := by
  unfold enrichItem at h ⊢
  cases he : enrichNames it.uniqueName it.localizedNames with
  | error cs => rw [he] at h; exact absurd h (by simp)
  | ok cs =>
    rw [he] at h
    have hr : r = { it with commonNames := cs } := (Except.ok.inj h).symm
    subst hr
    have hu : ({ it with commonNames := cs } : Item).uniqueName = it.uniqueName := rfl
    have hl : ({ it with commonNames := cs } : Item).localizedNames = it.localizedNames := rfl
    rw [hu, hl, he]

theorem enrichCatalog_fixed :
    ∀ data out : List Item, enrichCatalog data = some out → enrichCatalog out = some out := by
  intro data
  induction data with
  | nil =>
    intro out h
    obtain rfl : out = [] := by simpa [enrichCatalog, optMap] using h.symm
    rfl
  | cons it rest ih =>
    intro out h
    unfold enrichCatalog optMap at h
    cases he : (enrichItem it).toOption with
    | none => rw [he] at h; simp at h
    | some r =>
      rw [he] at h
      cases ho : optMap (fun x => (enrichItem x).toOption) rest with
      | none => rw [ho] at h; simp at h
      | some out2 =>
        rw [ho] at h
        obtain rfl : out = r :: out2 := by simpa using h.symm
        have hE : enrichItem it = .ok r := by
          cases hx : enrichItem it with
          | error e => rw [hx] at he; simp [Except.toOption] at he
          | ok v =>
            rw [hx] at he
            have hv : v = r := by simpa [Except.toOption] using he
            subst hv
            rfl
        have h1 : enrichItem r = .ok r := enrichItem_ok_fixed hE
        have h2 : optMap (fun x => (enrichItem x).toOption) out2 = some out2 := ih out2 ho
        have hfr : (enrichItem r).toOption = some r := by rw [h1]; rfl
        unfold enrichCatalog
        rw [optMap]
        simp only [hfr, h2]

/-! ## The claims -/

/-- C1: for every non-empty catalog and query, item_match returns exactly
the first four entries (the hard-coded top-K of the source) of the flat
candidate list sorted ascending by distance, ties between equal distances
broken by ascending item index, with no deduplication by item index: the
sorted list s is a permutation of the flat candidate list (so every
candidate, including several for one item, keeps competing), it is sorted
by the distance-then-index order, it is the unique such list, and the
returned names and ids are extracted from exactly s.take 4. -/
theorem c1_match_returns_sorted_top4 (ratioFn : String → String → ℚ)
    (q : String) (data : List Item) (_hne : data ≠ []) :
    ∃ s : List (ℚ × Nat),
      s.Perm (jDists ratioFn q data) ∧
      List.Sorted lexR s ∧
      (∀ t : List (ℚ × Nat), t.Perm (jDists ratioFn q data) → List.Sorted lexR t → t = s) ∧
      item_match ratioFn q data = extractResults data (s.take 4) := by
  refine ⟨sortCands (jDists ratioFn q data), List.perm_insertionSort _ _,
    List.sorted_insertionSort _ _, ?_, rfl⟩
  intro t ht hs
  exact List.eq_of_perm_of_sorted (ht.trans (List.perm_insertionSort _ _).symm) hs
    (List.sorted_insertionSort _ _)

/-- Witness for C1 on a concrete one-item catalog and query. -/
theorem c1_match_returns_sorted_top4_witness :
    ∃ s : List (ℚ × Nat),
      s.Perm (jDists ratioEq "bag" [Item.mk (some "T4_BAG") LocNames.null []]) ∧
      List.Sorted lexR s ∧
      (∀ t : List (ℚ × Nat),
        t.Perm (jDists ratioEq "bag" [Item.mk (some "T4_BAG") LocNames.null []]) →
        List.Sorted lexR t → t = s) ∧
      item_match ratioEq "bag" [Item.mk (some "T4_BAG") LocNames.null []] =
        extractResults [Item.mk (some "T4_BAG") LocNames.null []] (s.take 4) :=
  c1_match_returns_sorted_top4 ratioEq "bag" [Item.mk (some "T4_BAG") LocNames.null []]
    (by simp)

/-- C2: the flat candidate list restricted to item index i is exactly one
candidate for the lower-cased UniqueName (distance 1 when absent), one
candidate holding the minimum distance over the lower-cased LocalizedNames
values (1 when the mapping is empty, null or absent), and one candidate per
CommonNames entry, each paired with i, in that order. -/
theorem c2_item_candidate_block (ratioFn : String → String → ℚ) (q : String)
    (data : List Item) (i : Nat) (hi : i < data.length) :
    (jDists ratioFn q data).filter (fun c => c.2 == i) =
      uniqueCand ratioFn (pyLower q) i (data.get ⟨i, hi⟩).uniqueName
        ++ localCand ratioFn (pyLower q) i (data.get ⟨i, hi⟩).localizedNames
        ++ cnameCands ratioFn (pyLower q) i (data.get ⟨i, hi⟩).commonNames := by
  have h := jDistsFrom_filter_get ratioFn (pyLower q) data 0 i hi
  simpa [jDists, itemBlock] using h

/-- Witness for C2 on a concrete two-item catalog at index 1. -/
theorem c2_item_candidate_block_witness :
    (jDists ratioEq "bee"
        [Item.mk (some "A") LocNames.null [],
         Item.mk (some "B") (LocNames.map [("EN-US", "Bee")]) ["T1 Bee"]]).filter
      (fun c => c.2 == 1) =
      uniqueCand ratioEq (pyLower "bee") 1 (some "B")
        ++ localCand ratioEq (pyLower "bee") 1 (LocNames.map [("EN-US", "Bee")])
        ++ cnameCands ratioEq (pyLower "bee") 1 ["T1 Bee"] :=
  c2_item_candidate_block ratioEq "bee"
    [Item.mk (some "A") LocNames.null [],
     Item.mk (some "B") (LocNames.map [("EN-US", "Bee")]) ["T1 Bee"]] 1 (by decide)

/-- C3 counterexample: item_match on the empty catalog does not signal an
error; it returns the empty result pair.  The claim says an empty-catalog
error is raised rather than any result returned, so this concrete run
refutes it (the callers crash later, on ranked[0], outside item_match). -/
theorem c3_empty_catalog_counterexample :
    item_match ratioEq "sword" [] = some ([], []) := rfl

/-- C3 amended: for every ratio function and every query, item_match on the
empty catalog returns the pair of empty lists, signalling nothing. -/
theorem c3_empty_catalog_returns_empty (ratioFn : String → String → ℚ)
    (q : String) : item_match ratioFn q [] = some ([], []) := rfl

/-- C4 counterexample: a one-item catalog whose item has an empty
LocalizedNames mapping.  Candidate generation tolerates it (distance 1),
but the result extraction subscripts LocalizedNames["EN-US"] unguarded and
raises, so no result is returned — refuting the claim that missing fields
never prevent a result. -/
theorem c4_missing_fields_counterexample :
    item_match ratioEq "x" [Item.mk (some "X") (LocNames.map []) []] = none := by
  norm_num [item_match, jDists, jDistsFrom, itemBlock, uniqueCand, localCand, cnameCands,
    sortCands, extractResults, optMap, getLocEN, getUniqueId, enUSName, lookupLoc,
    pyLower, ratioEq, lexR]

/-- C4 amended: candidate generation never raises — missing UniqueName or
missing/null/empty LocalizedNames contribute the maximal distance 1, as the
block lemmas state — but item_match as a whole returns a result only when
the winning items survive extraction; in particular, whenever every item of
a non-empty catalog has an EN-US localized name and a UniqueName, a result
is returned. -/
theorem c4_returns_when_fields_present (ratioFn : String → String → ℚ)
    (q : String) (data : List Item) (_hne : data ≠ [])
    (hfields : ∀ it ∈ data, (enUSName it).isSome ∧ it.uniqueName.isSome) :
    (item_match ratioFn q data).isSome := by
  have htop : ∀ c ∈ (sortCands (jDists ratioFn q data)).take 4, c.2 < data.length := by
    intro c hc
    have h1 : c ∈ sortCands (jDists ratioFn q data) := List.take_subset _ _ hc
    have h2 : c ∈ jDists ratioFn q data := (List.perm_insertionSort lexR _).subset h1
    have h3 := mem_jDistsFrom_snd_lt ratioFn (pyLower q) data 0 c h2
    simpa using h3
  have hget : ∀ c ∈ (sortCands (jDists ratioFn q data)).take 4,
      ∃ it, data.get? c.2 = some it ∧ it ∈ data := by
    intro c hc
    have hlt := htop c hc
    exact ⟨data.get ⟨c.2, hlt⟩, List.get?_eq_get hlt, List.get_mem data c.2 hlt⟩
  have hnames : ∀ c ∈ (sortCands (jDists ratioFn q data)).take 4,
      (getLocEN data c.2).isSome := by
    intro c hc
    obtain ⟨it, hit, hmem⟩ := hget c hc
    have h := (hfields it hmem).1
    simp only [getLocEN, hit, Option.some_bind]
    exact h
  have hids : ∀ c ∈ (sortCands (jDists ratioFn q data)).take 4,
      (getUniqueId data c.2).isSome := by
    intro c hc
    obtain ⟨it, hit, hmem⟩ := hget c hc
    have h := (hfields it hmem).2
    simp only [getUniqueId, hit, Option.some_bind]
    exact h
  obtain ⟨names, hn⟩ := Option.isSome_iff_exists.mp (optMap_isSome _ _ hnames)
  obtain ⟨ids, hi2⟩ := Option.isSome_iff_exists.mp (optMap_isSome _ _ hids)
  unfold item_match extractResults
  rw [hn, hi2]
  rfl

/-- Witness for C4 amended on a concrete one-item catalog with both fields
present. -/
theorem c4_returns_when_fields_present_witness :
    (item_match ratioEq "t4 bag"
      [Item.mk (some "T4_BAG") (LocNames.map [("EN-US", "Bag")]) ["T4 Bag"]]).isSome :=
  c4_returns_when_fields_present ratioEq "t4 bag"
    [Item.mk (some "T4_BAG") (LocNames.map [("EN-US", "Bag")]) ["T4 Bag"]]
    (by simp) (by decide)

/-- C5: for every input string in which no position matches the
T<tier>_<NAME> pattern, convertItem returns tier 1, enchant 0 and the whole
original string as the base name.  The translated parser is a total
function, matching the source: findall never raises and _tryInt catches
the conversion error. -/
theorem c5_unmatched_identifier_defaults (s : String)
    (h : ∀ l₁ l₂, s.data = l₁ ++ l₂ → tierMatchAt l₂ = none) :
    convertItem s = ItemName.mk 1 s 0 := by
  have hnone : findTierMatch s.data = none := (findTierMatch_none_iff s.data).mpr h
  rw [convertItem, hnone]

/-- Witness for C5 on a concrete pattern-free input. -/
theorem c5_unmatched_identifier_defaults_witness :
    convertItem "dagger" = ItemName.mk 1 "dagger" 0 :=
  c5_unmatched_identifier_defaults "dagger"
    ((findTierMatch_none_iff (String.data "dagger")).mp (by decide))

/-- C6: addTierNickname appends the dotted shorthand
"T{tier}.{enchant} {baseName}" for every item, and appends the bare
"T{tier} {baseName}" exactly when the enchant is 0; an enchanted item gets
only the dotted form from this rule. -/
theorem c6_tier_shorthand_aliases (n : ItemName) (cs : List String) :
    addTierNickname n cs =
      cs ++ ["T" ++ toString n.tier ++ "." ++ toString n.enchant ++ " " ++ n.name]
         ++ (if n.enchant = 0 then ["T" ++ toString n.tier ++ " " ++ n.name] else []) := by
  unfold addTierNickname shortTE shortT
  split <;> simp

/-- C7 counterexample: an enchant-0 item whose EN-US name is the single
word "Cured" (first word in the enchantment-quality set, no second word).
The claim promises the bare "T{tier}" mirror and completion; the code
appends the dotted variant "T4.0" and then raises IndexError on the
unguarded fields[1] subscript, so enrichment of the item errors out with
no bare mirror appended. -/
theorem c7_single_word_counterexample :
    enrichItem (Item.mk (some "T4_FOO") (LocNames.map [("EN-US", "Cured")]) []) =
      .error (Item.mk (some "T4_FOO") (LocNames.map [("EN-US", "Cured")])
        ["T4.0 FOO", "T4 FOO", "T4.0"]) := rfl

/-- C7 amended: the long-form enchantment substitution behaves as claimed
provided the EN-US display name splits into at least two words: when its
first word is in the enchantment-quality set, the rule appends the dotted
"T{tier}.{enchant}" variant of the remaining words, additionally the
variant dropping the second word when that word is in the resource-name
set, and when the enchant is 0 both variants mirrored with the bare
"T{tier}" prefix, completing normally. -/
theorem c7_enchant_substitution (n : ItemName) (m : List (String × String))
    (cs : List String) (longName f0 f1 : String) (rest2 : List String)
    (hlook : lookupLoc m "EN-US" = some longName)
    (hsplit : pysplit longName = f0 :: f1 :: rest2)
    (henc : ENC_LONG_NAMES.contains f0 = true) :
    replaceLongEnchantName n (LocNames.map m) cs =
      .ok (((cs ++ [String.intercalate " " (shortTE n :: f1 :: rest2)])
        ++ (if RESOURCE_NAMES.contains f1 then
              [String.intercalate " " (shortTE n :: rest2)]
            else []))
        ++ (if n.enchant = 0 then
              [String.intercalate " " (shortT n :: f1 :: rest2)]
                ++ (if RESOURCE_NAMES.contains f1 then
                      [String.intercalate " " (shortT n :: rest2)]
                    else [])
            else [])) := by
  simp only [replaceLongEnchantName, hlook, hsplit, henc, if_true]
  by_cases hres : f1 ∈ RESOURCE_NAMES <;>
    by_cases he0 : n.enchant = 0 <;>
      simp [hres, he0, List.append_assoc]

/-- Witness for C7 amended on a concrete two-word display name. -/
theorem c7_enchant_substitution_witness :
    replaceLongEnchantName (ItemName.mk 4 "X" 0)
        (LocNames.map [("EN-US", "Rare Panther")]) [] =
      .ok ((([] ++ [String.intercalate " " (shortTE (ItemName.mk 4 "X" 0) :: "Panther" :: [])])
        ++ (if RESOURCE_NAMES.contains "Panther" then
              [String.intercalate " " (shortTE (ItemName.mk 4 "X" 0) :: [])]
            else []))
        ++ (if (ItemName.mk 4 "X" 0).enchant = 0 then
              [String.intercalate " " (shortT (ItemName.mk 4 "X" 0) :: "Panther" :: [])]
                ++ (if RESOURCE_NAMES.contains "Panther" then
                      [String.intercalate " " (shortT (ItemName.mk 4 "X" 0) :: [])]
                    else [])
            else [])) :=
  c7_enchant_substitution (ItemName.mk 4 "X" 0) [("EN-US", "Rare Panther")] []
    "Rare Panther" "Rare" "Panther" [] (by decide) (by decide) (by decide)

/-- C8: the claim states that absence of localized-name data never aborts
enrichment of an item, and the source comments state the intent ("No
localized name for this item, we skip"), but the code catches only
TypeError: with a LocalizedNames mapping that lacks the EN-US key the
unguarded subscript raises KeyError and the run aborts after only the
tier-shorthand aliases were appended.  This theorem evaluates the embedded
code at that failing input. -/
theorem c8_missing_locale_aborts_enrichment :
    enrichItem (Item.mk (some "T4_FOO") (LocNames.map [("DE-DE", "Dolch")]) []) =
      .error (Item.mk (some "T4_FOO") (LocNames.map [("DE-DE", "Dolch")])
        ["T4.0 FOO", "T4 FOO"]) := rfl

/-- C9 counterexample: the identifier "T9_FOO" parses, via the single-digit
regex group, to tier 9, outside the claimed range [1,8]. -/
theorem c9_tier_range_counterexample :
    (convertItem "T9_FOO").tier = 9 ∧
      ¬ (1 ≤ (convertItem "T9_FOO").tier ∧ (convertItem "T9_FOO").tier ≤ 8) := by
  decide

/-- C9 amended: the parsed identifier always satisfies tier at most 9 and
enchant at most 9 (each regex group is one digit; the no-match defaults 1
and 0 are inside these bounds); both are natural numbers, hence at least
0, but tier 0 and 9 are reachable so [1,8] is not an invariant. -/
theorem c9_parsed_bounds (s : String) :
    (convertItem s).tier ≤ 9 ∧ (convertItem s).enchant ≤ 9 := by
  unfold convertItem
  cases hm : findTierMatch s.data with
  | none => exact ⟨by norm_num, by norm_num⟩
  | some res =>
    obtain ⟨h1, h2⟩ := findTierMatch_digits s.data res hm
    obtain ⟨d, w, e⟩ := res
    cases e with
    | none => exact ⟨digitVal_le_9 h1, by norm_num⟩
    | some c => exact ⟨digitVal_le_9 h1, digitVal_le_9 (h2 c rfl)⟩

/-- C10: re-running enrichment on its own successful output succeeds and
leaves every item's UniqueName and LocalizedNames unchanged (enrichment
writes only CommonNames; in fact, because each run resets CommonNames
before appending, the re-run reproduces the output exactly). -/
theorem c10_reenrichment_preserves_fields (data out : List Item)
    (h : enrichCatalog data = some out) :
    ∃ out2, enrichCatalog out = some out2 ∧
      out2.map (fun it => (it.uniqueName, it.localizedNames)) =
        out.map (fun it => (it.uniqueName, it.localizedNames)) :=
  ⟨out, enrichCatalog_fixed data out h, rfl⟩

/-- Witness for C10 on a concrete one-item catalog. -/
theorem c10_reenrichment_preserves_fields_witness :
    ∃ out2, enrichCatalog [Item.mk (some "T4_BAG") LocNames.null ["T4.0 BAG", "T4 BAG"]] =
        some out2 ∧
      out2.map (fun it => (it.uniqueName, it.localizedNames)) =
        [Item.mk (some "T4_BAG") LocNames.null ["T4.0 BAG", "T4 BAG"]].map
          (fun it => (it.uniqueName, it.localizedNames)) :=
  c10_reenrichment_preserves_fields [Item.mk (some "T4_BAG") LocNames.null ["x"]]
    [Item.mk (some "T4_BAG") LocNames.null ["T4.0 BAG", "T4 BAG"]] (by decide)

end Albion
